import Mathlib

/-!
Verification of the GameGraphicsProgramming demo (`GameGraphicsEngine/Game.cpp`)
against its natural-language specification.

The repository ships only the orchestrator translation unit `Game.cpp`; the
collaborator classes it drives (`Emitter`, `Camera`, `Entity`, the `DXCore`
frame pump) appear there only through construction and call sites.  Where a
property is decided by such a missing class, the corresponding definition below
is modelled from the specification text and marked `Modelled from the spec:`.
Everything else is translated directly from `Game.cpp`.

Real-valued quantities (C++ `float`/`double`) are embedded as exact rationals
(`ℚ`); machine integers as `ℕ`/`ℤ`.
-/

/-! ## Particle emitter (modelled from the spec)

`Emitter` is constructed in `Game::Init` (Game.cpp:122-136) with
maxParticles=1000, particlesPerSecond=100, particleLifetime=5, start/end
sizes, colors, a start velocity, position and acceleration; its implementation
is not part of the shipped sources. -/

/-- A 3-component vector of rationals (embedding of `XMFLOAT3`). -/
structure Float3 where
  x : ℚ
  y : ℚ
  z : ℚ
deriving Repr, DecidableEq

/-- A 4-component vector of rationals (embedding of `XMFLOAT4`). -/
structure Float4 where
  x : ℚ
  y : ℚ
  z : ℚ
  w : ℚ
deriving Repr, DecidableEq

/-- Modelled from the spec: one particle of the emitter pool.  `age` is the
time since this particle was (re)spawned; `born` is the global index of the
spawn event that produced it (spawn events are numbered from 0), recording
relative age order for the oldest-first recycling property.  The kinematic
fields (position, velocity) are derivable from the configuration and `age`
and carry no extra state. -/
structure Particle where
  age : ℚ
  born : ℕ
deriving Repr, DecidableEq

/-- Modelled from the spec: the particle emitter.  A fixed-capacity pool of
slots (`none` = slot never yet used), a fractional spawn counter, and the
total number of spawn events so far.  The configuration fields mirror the
constructor arguments at Game.cpp:122-136. -/
structure Emitter where
  maxParticles : ℕ
  particlesPerSecond : ℚ
  particleLifetime : ℚ
  startSize : ℚ
  endSize : ℚ
  startColor : Float4
  endColor : Float4
  startVelocity : Float3
  startPosition : Float3
  startAcceleration : Float3
  pool : List (Option Particle)
  spawnCounter : ℚ
  totalSpawned : ℕ
deriving Repr, DecidableEq

/-- Modelled from the spec: emitter construction — empty pool of
`maxParticles` slots, spawn counter 0, nothing spawned yet. -/
def mkEmitter (maxP : ℕ) (pps life ssize esize : ℚ) (scol ecol : Float4)
    (svel spos sacc : Float3) : Emitter :=
  { maxParticles := maxP
    particlesPerSecond := pps
    particleLifetime := life
    startSize := ssize
    endSize := esize
    startColor := scol
    endColor := ecol
    startVelocity := svel
    startPosition := spos
    startAcceleration := sacc
    pool := List.replicate maxP none
    spawnCounter := 0
    totalSpawned := 0 }

/-- Modelled from the spec: spawn one particle at the pool slot chosen by
round-robin recycling — slot `totalSpawned % maxParticles`, so the slot of
the oldest spawn is reused once the pool is full. The new particle starts at
age 0. -/
def spawnOne (em : Emitter) : Emitter :=
  { em with
    pool := em.pool.set (em.totalSpawned % em.maxParticles)
      (some { age := 0, born := em.totalSpawned })
    totalSpawned := em.totalSpawned + 1 }

/-- Spawn `k` particles in sequence. -/
def spawnMany : Emitter → ℕ → Emitter
  | em, 0 => em
  | em, k + 1 => spawnMany (spawnOne em) k

/-- Modelled from the spec: advance every pooled particle's age by
`deltaTime`. -/
def ageParticles (em : Emitter) (dt : ℚ) : Emitter :=
  { em with pool := em.pool.map (Option.map fun p => { p with age := p.age + dt }) }

/-- Number of whole units the accumulated spawn counter crosses during an
update: one spawn per unit.  (`Int.toNat` truncates at zero for a negative
counter, where no spawn occurs.) -/
def pendingSpawns (em : Emitter) (dt : ℚ) : ℕ :=
  (⌊em.spawnCounter + em.particlesPerSecond * dt⌋).toNat

/-- Modelled from the spec: `Emitter::Update(deltaTime)` — ages the pool,
accumulates `particlesPerSecond * deltaTime` onto the fractional spawn
counter, and spawns one particle per whole unit the counter has crossed,
decrementing the counter by 1 for each spawn. -/
def Emitter.update (em : Emitter) (dt : ℚ) : Emitter :=
  spawnMany
    { ageParticles em dt with
      spawnCounter :=
        em.spawnCounter + em.particlesPerSecond * dt - (pendingSpawns em dt : ℚ) }
    (pendingSpawns em dt)

/-- Apply a sequence of `update` calls. -/
def applyUpdates (em : Emitter) (dts : List ℚ) : Emitter :=
  dts.foldl Emitter.update em

/-- The pool slot at index `i` (`none` when unused or out of range; the pool
length is always `maxParticles`). -/
def slot (em : Emitter) (i : ℕ) : Option Particle :=
  (em.pool[i]?).join

/-- Modelled from the spec: a particle is live while its age is below the
configured lifetime; older particles are treated as dead. -/
def liveCount (em : Emitter) : ℕ :=
  (em.pool.filterMap id).countP fun p => decide (p.age < em.particleLifetime)

/-- Number of pool slots currently holding a (live or dead) particle. -/
def usedSlots (em : Emitter) : ℕ :=
  em.pool.countP fun o => o.isSome

/-- The slot the next spawn will (re)use. -/
def nextSpawnSlot (em : Emitter) : ℕ :=
  em.totalSpawned % em.maxParticles

/-- Clamp a rational to the unit interval `[0, 1]`. -/
def clamp01 (x : ℚ) : ℚ := max 0 (min 1 x)

/-- Modelled from the spec: the interpolation parameter driving a particle's
size, color and opacity — `age / lifetime`, clamped to `[0, 1]`. -/
def particleT (age life : ℚ) : ℚ := clamp01 (age / life)

/-- Linear interpolation between `a` and `b` with parameter `t`. -/
def lerp (a b t : ℚ) : ℚ := a + (b - a) * t

/-- Modelled from the spec: a particle's rendered size, linearly interpolated
between the emitter's start and end sizes by the interpolation parameter. -/
def particleSize (em : Emitter) (p : Particle) : ℚ :=
  lerp em.startSize em.endSize (particleT p.age em.particleLifetime)

/-! ## Closed form of spawning into a fresh pool -/

/-- The pool produced by `k` spawns into a fresh pool: slots `0..k-1` hold
age-0 particles born in order. -/
def prefixPool (k : ℕ) : List (Option Particle) :=
  (List.range k).map fun j => some { age := 0, born := j }

/-! ## Pool invariant: capacity, round-robin slots, oldest-first recycling -/

/-- Invariant carried through every emitter operation: the pool always has
exactly `maxParticles` slots; a slot is empty only if it was never spawned
into; and a slot `i` holds a particle from spawn event `born` exactly when
`born` is the most recent spawn event with `born % maxParticles = i`. -/
def EmInv (em : Emitter) : Prop :=
  em.pool.length = em.maxParticles ∧
  ∀ i, i < em.maxParticles →
    (slot em i = none → em.totalSpawned ≤ i) ∧
    ∀ p, slot em i = some p →
      p.born < em.totalSpawned ∧ p.born % em.maxParticles = i ∧
      em.totalSpawned ≤ p.born + em.maxParticles

/-- Small concrete emitter used to witness `emitter_capacity_and_recycling`:
capacity 2, spawn rate 3/s. -/
def emW : Emitter :=
  mkEmitter 2 3 1 0 0 ⟨0, 0, 0, 0⟩ ⟨0, 0, 0, 0⟩ ⟨0, 0, 0⟩ ⟨0, 0, 0⟩ ⟨0, 0, 0⟩

/-! ## Non-negative particle ages -/

/-- Every pooled particle has non-negative age (holds whenever all
`deltaTime`s are non-negative). -/
def AgesNonneg (em : Emitter) : Prop :=
  ∀ i p, slot em i = some p → 0 ≤ p.age

/-! ## Camera (modelled from the spec; `Camera` is driven from Game.cpp but
its implementation is not among the shipped sources) -/

/-- Modelled from the spec: the fixed mouse-sensitivity factor applied by
`Camera::RotateCamera`; the spec fixes only that it is a constant factor. -/
def cameraSensitivity : ℚ := 1/1000

/-- Modelled from the spec: camera orientation accumulators (degrees) and the
aspect ratio its projection matrix was last computed from. -/
structure Camera where
  yaw : ℚ
  pitch : ℚ
  projAspect : ℚ
deriving Repr, DecidableEq

/-- Modelled from the spec: `Camera::RotateCamera(deltaX, deltaY)` adjusts the
yaw/pitch accumulators by the sensitivity factor, clamping pitch to ±89° so
the view cannot invert past the vertical poles. -/
def rotateCamera (c : Camera) (dx dy : ℚ) : Camera :=
  { c with
    yaw := c.yaw + dx * cameraSensitivity
    pitch := max (-89) (min 89 (c.pitch + dy * cameraSensitivity)) }

/-- Apply a sequence of `RotateCamera` calls. -/
def applyRotations (c : Camera) (ds : List (ℚ × ℚ)) : Camera :=
  ds.foldl (fun cam d => rotateCamera cam d.1 d.2) c

/-- Modelled from the spec: `Camera::SetProjectionMat(width, height)`
recomputes the projection matrix from the new aspect ratio (vertical field of
view and near/far planes are fixed constants); the model tracks the aspect
ratio the projection is derived from. -/
def setProjectionMat (c : Camera) (w h : ℕ) : Camera :=
  { c with projAspect := (w : ℚ) / (h : ℚ) }

/-- A freshly constructed camera: level orientation. -/
def mkCamera : Camera := { yaw := 0, pitch := 0, projAspect := 0 }

/-! ## Game orchestrator state (translated from Game.cpp) -/

/-- The orchestrator state mutated by `Game::Update`, `Game::OnResize` and the
mouse handlers: client size, camera, the entity transform fields Update
touches, the previous mouse position, the emitter, and the pending quit
request. -/
structure GameState where
  width : ℕ
  height : ℕ
  camera : Camera
  entityOneRotation : Float3
  entityTwoPosition : Float3
  entityThreeScale : Float3
  prevMouseX : ℤ
  prevMouseY : ℤ
  emitter : Emitter
  quitRequested : Bool
deriving Repr, DecidableEq

/-- `Game::OnResize` (Game.cpp:259-266): `DXCore::OnResize` (collaborator)
rebuilds the surface and stores the new client size, then
`gameCamera->SetProjectionMat(width, height)` recomputes the projection from
the new size — synchronously, before returning. -/
def onResize (g : GameState) (newW newH : ℕ) : GameState :=
  let g1 := { g with width := newW, height := newH }
  { g1 with camera := setProjectionMat g1.camera g1.width g1.height }

/-- The projection aspect ratio `Game::Draw` reads through
`gameCamera->GetProjectionMat()` when preparing each entity's material
(Game.cpp:321, 335, 349). -/
def drawProjAspect (g : GameState) : ℚ := g.camera.projAspect

/-- `Game::Update(deltaTime, totalTime)` (Game.cpp:271-288).  Collaborator
results enter as arguments: `sinTotalTime` is the math library's value of
`sin(totalTime)` and `escPressed` the escape-key state `GetAsyncKeyState`
reports.  The per-entity `FinalizeMatrix` calls recompute derived world
matrices from these fields and keep no further orchestrator-visible state;
`Camera::Update` integrates keyboard movement (spec: out of scope) and
rebuilds the view matrix, leaving the fields modelled here unchanged. -/
def gameUpdate (g : GameState) (deltaTime totalTime sinTotalTime : ℚ)
    (escPressed : Bool) : GameState :=
  { g with
    emitter := g.emitter.update deltaTime
    entityOneRotation :=
      { x := g.entityOneRotation.x
        y := g.entityOneRotation.y + 1/10000
        z := g.entityOneRotation.z }
    entityTwoPosition :=
      { x := g.entityTwoPosition.x, y := sinTotalTime, z := g.entityTwoPosition.z }
    entityThreeScale :=
      { x := sinTotalTime + 1, y := sinTotalTime + 1, z := sinTotalTime + 1 }
    quitRequested := g.quitRequested || escPressed }

/-- `Game::OnMouseMove(buttonState, x, y)` (Game.cpp:411-428): when bit 0 of
`buttonState` is set (`buttonState & 0x0001`, left button held) and the
position differs from the stored previous one, `RotateCamera` is invoked with
the position delta; the previous mouse position is then always overwritten
with `(x, y)`.  Returns the new state paired with the list of
`RotateCamera(deltaX, deltaY)` calls issued. -/
def onMouseMove (g : GameState) (buttonState : ℕ) (x y : ℤ) :
    GameState × List (ℚ × ℚ) :=
  let calls : List (ℚ × ℚ) :=
    if buttonState &&& 1 ≠ 0 ∧ (x ≠ g.prevMouseX ∨ y ≠ g.prevMouseY) then
      [(((x - g.prevMouseX : ℤ) : ℚ), ((y - g.prevMouseY : ℤ) : ℚ))]
    else []
  let cam := calls.foldl (fun c d => rotateCamera c d.1 d.2) g.camera
  ({ g with camera := cam, prevMouseX := x, prevMouseY := y }, calls)

/-! ## The draw pipeline as a step sequence (translated from Game::Draw) -/

/-- The three opaque entities, in the order `Game::Draw` renders them. -/
inductive EntityId where
  | sphere
  | cube
  | helix
deriving DecidableEq, Repr

/-- One abstract pipeline step of `Game::Draw`. -/
inductive RenderStep where
  | clearRenderTarget
  | clearDepthStencil
  | setVertexBuffer (e : EntityId)
  | setIndexBuffer (e : EntityId)
  | prepareMaterial (e : EntityId)
  | drawIndexed (e : EntityId)
  | setParticleBlendState
  | setParticleDepthState
  | drawEmitter
  | resetBlendState
  | resetDepthState
  | present
deriving DecidableEq, Repr

/-- The four context calls `Game::Draw` issues per opaque entity
(Game.cpp:315-354): bind vertex buffer, bind index buffer, prepare the
material's shaders, issue the indexed draw. -/
def drawEntitySteps (e : EntityId) : List RenderStep :=
  [RenderStep.setVertexBuffer e, RenderStep.setIndexBuffer e,
   RenderStep.prepareMaterial e, RenderStep.drawIndexed e]

/-- `Game::Draw` (Game.cpp:293-372) as its sequence of pipeline steps: clear
both targets, draw the three opaque entities, switch to the additive blend
and no-depth-write depth states, draw the emitter, restore the default
states, present. -/
def gameDrawSteps : List RenderStep :=
  [RenderStep.clearRenderTarget, RenderStep.clearDepthStencil]
  ++ drawEntitySteps EntityId.sphere
  ++ drawEntitySteps EntityId.cube
  ++ drawEntitySteps EntityId.helix
  ++ [RenderStep.setParticleBlendState, RenderStep.setParticleDepthState,
      RenderStep.drawEmitter, RenderStep.resetBlendState, RenderStep.resetDepthState,
      RenderStep.present]

/-! ## Shader loading (translated from Game::LoadShaders) -/

/-- One shader load in `Game::LoadShaders` (Game.cpp:170-186): try the
primary path; exactly when that load fails, try the fallback path once.
`loads` is the collaborator oracle saying which paths load successfully in
the current working directory.  Returns the attempted paths in order and
whether the shader ended up loaded (`false` = the resource stays null). -/
def loadShaderWithFallback (loads : String → Bool) (primary fallback : String) :
    List String × Bool :=
  if loads primary then ([primary], true)
  else ([primary, fallback], loads fallback)

/-- The four shader files `Game::LoadShaders` loads, each with its primary
(Debug/) and fallback path. -/
def shaderFiles : List (String × String) :=
  [("Debug/VertexShader.cso", "VertexShader.cso"),
   ("Debug/PixelShader.cso", "PixelShader.cso"),
   ("Debug/ParticleVS.cso", "ParticleVS.cso"),
   ("Debug/ParticlePS.cso", "ParticlePS.cso")]

/-- `Game::LoadShaders` processes all four shaders unconditionally: a failed
load leaves that shader object without a loaded file and execution simply
continues to the next load and the rest of `Init`. -/
def loadShaders (loads : String → Bool) : List (List String × Bool) :=
  shaderFiles.map fun pr => loadShaderWithFallback loads pr.1 pr.2

/-! ## Frame pump (modelled from the spec; DXCore's loop is not among the
shipped sources) -/

/-- Events of the per-frame loop, for the quit-request ordering property. -/
inductive LoopEvent where
  | update
  | escCheck
  | quitRequest
  | draw
deriving DecidableEq, Repr

/-- Modelled from the spec: the frame pump calls Update then Draw repeatedly;
`Game::Update` checks the escape key exactly once at its end (Game.cpp:286-287)
and a detected press requests process termination, after which the pump
issues no further Draw.  Input: the escape-key state of each frame. -/
def frameTrace : List Bool → List LoopEvent
  | [] => []
  | esc :: rest =>
    LoopEvent.update :: LoopEvent.escCheck ::
      (if esc then [LoopEvent.quitRequest] else LoopEvent.draw :: frameTrace rest)

/-- Decides that no draw event follows a quit request in a loop trace. -/
def noDrawAfterQuit : List LoopEvent → Bool
  | [] => true
  | LoopEvent.quitRequest :: rest => rest.all fun e => decide (e ≠ LoopEvent.draw)
  | LoopEvent.update :: rest => noDrawAfterQuit rest
  | LoopEvent.escCheck :: rest => noDrawAfterQuit rest
  | LoopEvent.draw :: rest => noDrawAfterQuit rest

theorem prefixPool_length (k : ℕ) : (prefixPool k).length = k := by
  simp [prefixPool]

theorem spawnMany_fresh (em : Emitter) (M n k : ℕ) (hM : em.maxParticles = M)
    (hpool : em.pool = prefixPool n ++ List.replicate (M - n) none)
    (hT : em.totalSpawned = n) (hnk : n + k ≤ M) :
    spawnMany em k
      = { em with pool := prefixPool (n + k) ++ List.replicate (M - (n + k)) none,
                  totalSpawned := n + k } := by
  induction k generalizing em n with
  | zero =>
    rw [spawnMany]
    cases em
    simp_all
  | succ k ih =>
    have hn : n < M := by omega
    have hstep : spawnOne em
        = { em with pool := prefixPool (n + 1) ++ List.replicate (M - (n + 1)) none,
                    totalSpawned := n + 1 } := by
      have hrepl : List.replicate (M - n) (none : Option Particle)
          = none :: List.replicate (M - (n + 1)) none := by
        rw [← List.replicate_succ]
        congr 1
        omega
      have hset : em.pool.set n (some { age := 0, born := n })
          = prefixPool (n + 1) ++ List.replicate (M - (n + 1)) none := by
        rw [hpool, List.set_append, prefixPool_length]
        simp only [Nat.lt_irrefl, if_false, Nat.sub_self]
        rw [hrepl, List.set_cons_zero]
        rw [show prefixPool (n + 1) = prefixPool n ++ [some { age := 0, born := n }] by
          simp [prefixPool, List.range_succ]]
        simp
      rw [spawnOne, hT, hM, Nat.mod_eq_of_lt hn, hset]
    rw [spawnMany]
    have harith : n + 1 + k = n + (k + 1) := by omega
    have h1 : (spawnOne em).maxParticles = M := hM
    have h2 : (spawnOne em).pool
        = prefixPool (n + 1) ++ List.replicate (M - (n + 1)) none := by
      rw [hstep]
    have h3 : (spawnOne em).totalSpawned = n + 1 := by
      rw [show (spawnOne em).totalSpawned = em.totalSpawned + 1 from rfl, hT]
    rw [ih (spawnOne em) (n + 1) h1 h2 h3 (by omega), hstep, harith]

theorem liveCount_fresh (em : Emitter) (k m : ℕ)
    (hpool : em.pool = prefixPool k ++ List.replicate m none)
    (hlife : 0 < em.particleLifetime) :
    liveCount em = k := by
  rw [liveCount, hpool, List.filterMap_append]
  rw [show List.filterMap id (List.replicate m (none : Option Particle)) = [] from
    List.filterMap_replicate]
  rw [List.append_nil, prefixPool, List.filterMap_map]
  rw [show (id ∘ fun j => some { age := 0, born := j : Particle })
      = some ∘ (fun j => { age := 0, born := j : Particle }) from rfl]
  rw [List.filterMap_eq_map]
  have hall : List.countP (fun p => decide (p.age < em.particleLifetime))
      (List.map (fun j => { age := 0, born := j : Particle }) (List.range k))
      = (List.map (fun j => { age := 0, born := j : Particle }) (List.range k)).length := by
    rw [List.countP_eq_length]
    intro p hp
    obtain ⟨j, _, rfl⟩ := List.mem_map.mp hp
    simpa using hlife
  rw [hall]
  simp
def gameEmitter : Emitter :=
  mkEmitter 1000 100 5 (1/10) 5
    ⟨1, 1/10, 1/10, 1/5⟩ ⟨1, 3/5, 1/10, 0⟩
    ⟨-2, 2, 0⟩ ⟨2, 0, 0⟩ ⟨0, -1, 0⟩

/-! ## Basic emitter lemmas -/
theorem spawnOne_maxParticles (em : Emitter) :
    (spawnOne em).maxParticles = em.maxParticles := rfl

theorem spawnOne_totalSpawned (em : Emitter) :
    (spawnOne em).totalSpawned = em.totalSpawned + 1 := rfl

theorem spawnOne_spawnCounter (em : Emitter) :
    (spawnOne em).spawnCounter = em.spawnCounter := rfl

theorem spawnOne_pool_length (em : Emitter) :
    (spawnOne em).pool.length = em.pool.length := List.length_set ..

theorem spawnMany_maxParticles (em : Emitter) (k : ℕ) :
    (spawnMany em k).maxParticles = em.maxParticles := by
  induction k generalizing em with
  | zero => rfl
  | succ k ih => simpa [spawnMany] using ih (spawnOne em)

theorem spawnMany_totalSpawned (em : Emitter) (k : ℕ) :
    (spawnMany em k).totalSpawned = em.totalSpawned + k := by
  induction k generalizing em with
  | zero => rfl
  | succ k ih =>
    rw [spawnMany, ih (spawnOne em), spawnOne_totalSpawned]
    omega

theorem spawnMany_spawnCounter (em : Emitter) (k : ℕ) :
    (spawnMany em k).spawnCounter = em.spawnCounter := by
  induction k generalizing em with
  | zero => rfl
  | succ k ih => simpa [spawnMany] using ih (spawnOne em)

theorem spawnMany_lifetime (em : Emitter) (k : ℕ) :
    (spawnMany em k).particleLifetime = em.particleLifetime := by
  induction k generalizing em with
  | zero => rfl
  | succ k ih => simpa [spawnMany] using ih (spawnOne em)

theorem spawnMany_pool_length (em : Emitter) (k : ℕ) :
    (spawnMany em k).pool.length = em.pool.length := by
  induction k generalizing em with
  | zero => rfl
  | succ k ih => simpa [spawnMany, spawnOne_pool_length] using ih (spawnOne em)

theorem ageParticles_pool_length (em : Emitter) (dt : ℚ) :
    (ageParticles em dt).pool.length = em.pool.length := List.length_map ..

theorem update_maxParticles (em : Emitter) (dt : ℚ) :
    (Emitter.update em dt).maxParticles = em.maxParticles := by
  simp [Emitter.update, spawnMany_maxParticles, ageParticles]

theorem update_pool_length (em : Emitter) (dt : ℚ) :
    (Emitter.update em dt).pool.length = em.pool.length := by
  simp [Emitter.update, spawnMany_pool_length, ageParticles]

theorem update_lifetime (em : Emitter) (dt : ℚ) :
    (Emitter.update em dt).particleLifetime = em.particleLifetime := by
  simp [Emitter.update, spawnMany_lifetime, ageParticles]

/-! ## Slot-level characterization -/
theorem slot_mkEmitter (maxP : ℕ) (pps life ssize esize : ℚ) (scol ecol : Float4)
    (svel spos sacc : Float3) (i : ℕ) :
    slot (mkEmitter maxP pps life ssize esize scol ecol svel spos sacc) i = none := by
  simp only [slot, mkEmitter, List.getElem?_replicate]
  split <;> rfl

theorem slot_spawnOne_self (em : Emitter)
    (h : em.totalSpawned % em.maxParticles < em.pool.length) :
    slot (spawnOne em) (em.totalSpawned % em.maxParticles)
      = some { age := 0, born := em.totalSpawned } := by
  simp [slot, spawnOne, List.getElem?_set, h]

theorem slot_spawnOne_other (em : Emitter) (i : ℕ)
    (h : i ≠ em.totalSpawned % em.maxParticles) :
    slot (spawnOne em) i = slot em i := by
  simp [slot, spawnOne, List.getElem?_set, (Ne.symm h : em.totalSpawned % em.maxParticles ≠ i)]

theorem slot_ageParticles (em : Emitter) (dt : ℚ) (i : ℕ) :
    slot (ageParticles em dt) i
      = (slot em i).map fun p => { p with age := p.age + dt } := by
  simp only [slot, ageParticles, List.getElem?_map]
  cases em.pool[i]? with
  | none => rfl
  | some o => cases o <;> rfl

/-- A number congruent to `x` inside the half-open window `[x, x + M)` equals `x`. -/
theorem mod_window_eq {M x y : ℕ} (hxy : x ≤ y) (hy : y < x + M) (h : y % M = x % M) :
    y = x := by
  have h1 : M ∣ y - x := (Nat.modEq_iff_dvd' hxy).mp (Nat.ModEq.symm h)
  rcases Nat.eq_zero_or_pos (y - x) with h0 | h0
  · omega
  · have := Nat.le_of_dvd h0 h1
    omega

theorem emInv_mkEmitter (maxP : ℕ) (pps life ssize esize : ℚ) (scol ecol : Float4)
    (svel spos sacc : Float3) :
    EmInv (mkEmitter maxP pps life ssize esize scol ecol svel spos sacc) := by
  refine ⟨by simp [mkEmitter], fun i hi => ⟨fun _ => ?_, fun p hp => ?_⟩⟩
  · simp [mkEmitter]
  · rw [slot_mkEmitter] at hp
    exact absurd hp (by simp)

theorem emInv_spawnOne {em : Emitter} (h : EmInv em) : EmInv (spawnOne em) := by
  obtain ⟨hlen, hslots⟩ := h
  have hlen' : (spawnOne em).pool.length = (spawnOne em).maxParticles := by
    rw [spawnOne_pool_length]; exact hlen
  refine ⟨hlen', fun i hi => ?_⟩
  have hMpos : 0 < em.maxParticles := Nat.pos_of_ne_zero fun h0 => by
    rw [spawnOne_maxParticles] at hi; omega
  by_cases hcase : i = em.totalSpawned % em.maxParticles
  · subst hcase
    have hin : em.totalSpawned % em.maxParticles < em.pool.length := by
      rw [hlen]; exact Nat.mod_lt _ hMpos
    rw [slot_spawnOne_self em hin]
    refine ⟨fun hc => by simp at hc, fun p hp => ?_⟩
    obtain rfl : p = { age := 0, born := em.totalSpawned } := by
      simpa using hp.symm
    refine ⟨?_, rfl, ?_⟩
    · simp [spawnOne_totalSpawned]
    · simp only [spawnOne_totalSpawned, spawnOne_maxParticles]
      omega
  · rw [show slot (spawnOne em) i = slot em i from slot_spawnOne_other em i hcase]
    rw [spawnOne_maxParticles] at hi
    obtain ⟨hnone, hsome⟩ := hslots i hi
    refine ⟨fun hc => ?_, fun p hp => ?_⟩
    · -- empty slot: it was not spawned into before, and the new spawn went elsewhere
      have hTi : em.totalSpawned ≤ i := hnone hc
      have : em.totalSpawned ≠ i := fun he => by
        subst he
        exact hcase (Nat.mod_eq_of_lt hi).symm
      simp only [spawnOne_totalSpawned]
      omega
    · obtain ⟨hb1, hb2, hb3⟩ := hsome p hp
      refine ⟨?_, hb2, ?_⟩
      · simp only [spawnOne_totalSpawned]; omega
      · simp only [spawnOne_totalSpawned, spawnOne_maxParticles]
        -- if totalSpawned were exactly born + maxParticles, the new spawn
        -- would have landed on this very slot
        have : em.totalSpawned ≠ p.born + em.maxParticles := fun he => by
          apply hcase
          rw [he, Nat.add_mod_right, hb2]
        omega

theorem emInv_spawnMany {em : Emitter} (h : EmInv em) (k : ℕ) :
    EmInv (spawnMany em k) := by
  induction k generalizing em with
  | zero => exact h
  | succ k ih => exact ih (emInv_spawnOne h)

theorem emInv_ageParticles {em : Emitter} (h : EmInv em) (dt : ℚ) :
    EmInv (ageParticles em dt) := by
  obtain ⟨hlen, hslots⟩ := h
  refine ⟨by rw [ageParticles_pool_length]; exact hlen, fun i hi => ?_⟩
  obtain ⟨hnone, hsome⟩ := hslots i hi
  rw [show (ageParticles em dt).maxParticles = em.maxParticles from rfl] at hi ⊢
  constructor
  · rw [slot_ageParticles]
    intro hc
    exact hnone (by simpa using hc)
  · intro p hp
    rw [slot_ageParticles] at hp
    obtain ⟨q, hq, rfl⟩ := Option.map_eq_some'.mp hp
    exact hsome q hq

theorem emInv_setCounter {em : Emitter} (h : EmInv em) (c : ℚ) :
    EmInv { em with spawnCounter := c } := h

theorem emInv_update {em : Emitter} (h : EmInv em) (dt : ℚ) :
    EmInv (Emitter.update em dt) := by
  show EmInv (spawnMany _ _)
  exact emInv_spawnMany (emInv_setCounter (emInv_ageParticles h dt) _) _

theorem emInv_applyUpdates {em : Emitter} (h : EmInv em) (dts : List ℚ) :
    EmInv (applyUpdates em dts) := by
  induction dts generalizing em with
  | nil => exact h
  | cons dt dts ih => exact ih (emInv_update h dt)

/-! ## Consequences of the invariant -/
theorem slot_some_lt {em : Emitter} {i : ℕ} {p : Particle} (h : slot em i = some p) :
    i < em.pool.length := by
  rw [slot, Option.join_eq_some] at h
  exact (List.getElem?_eq_some.mp h).1

theorem liveCount_le_of_inv {em : Emitter} (h : EmInv em) :
    liveCount em ≤ em.maxParticles := by
  calc liveCount em ≤ (em.pool.filterMap id).length := List.countP_le_length _
    _ ≤ em.pool.length := List.length_filterMap_le _ _
    _ = em.maxParticles := h.1

theorem usedSlots_eq_of_inv {em : Emitter} (h : EmInv em)
    (hT : em.maxParticles ≤ em.totalSpawned) :
    usedSlots em = em.maxParticles := by
  obtain ⟨hlen, hslots⟩ := h
  rw [usedSlots, ← hlen, List.countP_eq_length]
  intro o ho
  obtain ⟨i, hi⟩ := List.mem_iff_getElem?.mp ho
  have hilen : i < em.pool.length := (List.getElem?_eq_some.mp hi).1
  cases o with
  | some p => rfl
  | none =>
    have hnone : slot em i = none := by rw [slot, hi]; rfl
    have := (hslots i (hlen ▸ hilen)).1 hnone
    omega

theorem oldest_slot_of_inv {em : Emitter} (h : EmInv em) (hM : 0 < em.maxParticles)
    (hT : em.maxParticles ≤ em.totalSpawned) :
    ∃ p, slot em (nextSpawnSlot em) = some p ∧
      ∀ i q, slot em i = some q → p.born ≤ q.born := by
  obtain ⟨hlen, hslots⟩ := h
  have hj : nextSpawnSlot em < em.maxParticles := Nat.mod_lt _ hM
  obtain ⟨hnone, hsome⟩ := hslots _ hj
  cases hp : slot em (nextSpawnSlot em) with
  | none => exact absurd (hnone hp) (by omega)
  | some p =>
    obtain ⟨hb1, hb2, hb3⟩ := hsome p hp
    -- the particle at the next spawn slot is exactly `totalSpawned - maxParticles`
    have hmod : (em.totalSpawned - em.maxParticles) % em.maxParticles
        = em.totalSpawned % em.maxParticles := by
      have hrw : em.totalSpawned - em.maxParticles + em.maxParticles = em.totalSpawned := by
        omega
      conv_rhs => rw [← hrw]
      rw [Nat.add_mod_right]
    have hborn : p.born = em.totalSpawned - em.maxParticles := by
      apply mod_window_eq (M := em.maxParticles) (by omega) (by omega)
      rw [hb2, nextSpawnSlot] at *
      rw [hmod]
    refine ⟨p, rfl, fun i q hq => ?_⟩
    have hilen : i < em.pool.length := slot_some_lt hq
    obtain ⟨_, _, hq3⟩ := (hslots i (hlen ▸ hilen)).2 q hq
    omega

/-! ## Evaluating one update of a freshly constructed emitter -/
theorem update_fresh (M : ℕ) (pps life ssize esize : ℚ) (scol ecol : Float4)
    (svel spos sacc : Float3) (dt : ℚ) (k : ℕ)
    (hk : (⌊(0 : ℚ) + pps * dt⌋).toNat = k) (hkM : k ≤ M) :
    Emitter.update (mkEmitter M pps life ssize esize scol ecol svel spos sacc) dt
      = { mkEmitter M pps life ssize esize scol ecol svel spos sacc with
          pool := prefixPool k ++ List.replicate (M - k) none,
          spawnCounter := (0 : ℚ) + pps * dt - (k : ℚ),
          totalSpawned := k } := by
  rw [Emitter.update]
  have hp : pendingSpawns (mkEmitter M pps life ssize esize scol ecol svel spos sacc) dt
      = k := by
    rw [pendingSpawns]
    exact hk
  rw [hp]
  have hfresh := spawnMany_fresh
    { ageParticles (mkEmitter M pps life ssize esize scol ecol svel spos sacc) dt with
      spawnCounter := (0 : ℚ) + pps * dt - (k : ℚ) }
    M 0 k rfl ?_ rfl (by omega)
  · rw [show (mkEmitter M pps life ssize esize scol ecol svel spos sacc).spawnCounter
        + (mkEmitter M pps life ssize esize scol ecol svel spos sacc).particlesPerSecond * dt
        - (k : ℚ) = (0 : ℚ) + pps * dt - (k : ℚ) from rfl]
    rw [hfresh]
    simp [prefixPool, ageParticles, mkEmitter]
  · show ((mkEmitter M pps life ssize esize scol ecol svel spos sacc).pool.map _)
      = prefixPool 0 ++ List.replicate (M - 0) none
    rw [show (mkEmitter M pps life ssize esize scol ecol svel spos sacc).pool
        = List.replicate M none from rfl]
    simp [prefixPool]

theorem update_totalSpawned (em : Emitter) (dt : ℚ) :
    (Emitter.update em dt).totalSpawned
      = em.totalSpawned + (⌊em.spawnCounter + em.particlesPerSecond * dt⌋).toNat := by
  rw [Emitter.update, spawnMany_totalSpawned, pendingSpawns]
  rfl

theorem update_spawnCounter (em : Emitter) (dt : ℚ) :
    (Emitter.update em dt).spawnCounter
      = em.spawnCounter + em.particlesPerSecond * dt
        - ((⌊em.spawnCounter + em.particlesPerSecond * dt⌋).toNat : ℚ) := by
  rw [Emitter.update, spawnMany_spawnCounter, pendingSpawns]

theorem spawnMany_succ (em : Emitter) (k : ℕ) :
    spawnMany em (k + 1) = spawnMany (spawnOne em) k := rfl

theorem spawnMany_zero (em : Emitter) : spawnMany em 0 = em := rfl

theorem applyUpdates_maxParticles (em : Emitter) (dts : List ℚ) :
    (applyUpdates em dts).maxParticles = em.maxParticles := by
  induction dts generalizing em with
  | nil => rfl
  | cons dt dts ih =>
    rw [show applyUpdates em (dt :: dts) = applyUpdates (Emitter.update em dt) dts from rfl,
      ih, update_maxParticles]

/-- C1: `update(deltaTime)` accumulates `particlesPerSecond * deltaTime` onto
the fractional spawn counter and spawns one particle per whole unit crossed,
decrementing the counter by 1 each time; for the emitter constructed in
`Game::Init` (maxParticles=1000, particlesPerSecond=100, lifetime=5), a single
`update(1.0)` leaves exactly 100 live particles and the counter at 0. -/
theorem emitter_spawn_rate_scenario :
    (∀ (em : Emitter) (dt : ℚ),
      (Emitter.update em dt).totalSpawned
        = em.totalSpawned + (⌊em.spawnCounter + em.particlesPerSecond * dt⌋).toNat ∧
      (Emitter.update em dt).spawnCounter
        = em.spawnCounter + em.particlesPerSecond * dt
          - ((⌊em.spawnCounter + em.particlesPerSecond * dt⌋).toNat : ℚ)) ∧
    liveCount (Emitter.update gameEmitter 1) = 100 ∧
    (Emitter.update gameEmitter 1).spawnCounter = 0 ∧
    (Emitter.update gameEmitter 1).totalSpawned = 100 := by
  have heval : Emitter.update gameEmitter 1 = _ :=
    update_fresh 1000 100 5 (1/10) 5 ⟨1, 1/10, 1/10, 1/5⟩ ⟨1, 3/5, 1/10, 0⟩
      ⟨-2, 2, 0⟩ ⟨2, 0, 0⟩ ⟨0, -1, 0⟩ 1 100 (by norm_num; rfl) (by norm_num)
  refine ⟨fun em dt => ⟨update_totalSpawned em dt, update_spawnCounter em dt⟩, ?_, ?_, ?_⟩
  · rw [heval]
    exact liveCount_fresh _ 100 (1000 - 100) rfl (by norm_num [mkEmitter])
  · rw [heval]
    show (0 : ℚ) + 100 * 1 - ((100 : ℕ) : ℚ) = 0
    norm_num
  · rw [heval]

/-- C2: over any update sequence from construction, the number of live
particles never exceeds `maxParticles`; once more than `maxParticles`
particles have been spawned in total, every pool slot is (logically) occupied
— exactly `maxParticles` particles remain, recycled rather than freed — and
the slot the next spawn reuses is the one holding the oldest particle. -/
theorem emitter_capacity_and_recycling (maxP : ℕ) (pps life ssize esize : ℚ)
    (scol ecol : Float4) (svel spos sacc : Float3) (dts : List ℚ) (hM : 0 < maxP) :
    let em := applyUpdates (mkEmitter maxP pps life ssize esize scol ecol svel spos sacc) dts
    liveCount em ≤ maxP ∧
    (maxP < em.totalSpawned →
      usedSlots em = maxP ∧
      ∃ p, slot em (nextSpawnSlot em) = some p ∧
        ∀ i q, slot em i = some q → p.born ≤ q.born) := by
  intro em
  have hinv : EmInv em :=
    emInv_applyUpdates (emInv_mkEmitter maxP pps life ssize esize scol ecol svel spos sacc) dts
  have hmax : em.maxParticles = maxP :=
    applyUpdates_maxParticles (mkEmitter maxP pps life ssize esize scol ecol svel spos sacc) dts
  refine ⟨?_, fun hT => ⟨?_, ?_⟩⟩
  · have h := liveCount_le_of_inv hinv
    rwa [hmax] at h
  · have h := usedSlots_eq_of_inv hinv (by omega)
    rwa [hmax] at h
  · exact oldest_slot_of_inv hinv (by omega) (by omega)

theorem emW_eval :
    applyUpdates emW [1]
      = { emW with pool := [some { age := 0, born := 2 }, some { age := 0, born := 1 }],
                   spawnCounter := 0, totalSpawned := 3 } := by
  show Emitter.update emW 1 = _
  rw [Emitter.update]
  have hp : pendingSpawns emW 1 = 3 := by
    simp only [pendingSpawns, emW, mkEmitter]
    norm_num
    decide
  rw [hp]
  have hbase : { ageParticles emW 1 with
      spawnCounter := emW.spawnCounter + emW.particlesPerSecond * 1 - ((3 : ℕ) : ℚ) }
      = { emW with spawnCounter := 0, pool := [none, none] } := by
    simp only [ageParticles, emW, mkEmitter]
    norm_num [List.replicate]
  rw [hbase]
  rw [show (3 : ℕ) = 0 + 1 + 1 + 1 from rfl, spawnMany_succ, spawnMany_succ, spawnMany_succ,
    spawnMany_zero]
  simp only [spawnOne, emW, mkEmitter]
  norm_num

/-- Witness for `emitter_capacity_and_recycling`: after one 1-second update of
a capacity-2, 3-particles-per-second emitter, 3 spawns have occurred, both
slots are occupied, and the next spawn slot holds the oldest particle. -/
theorem emitter_capacity_and_recycling_witness :
    liveCount (applyUpdates emW [1]) ≤ 2 ∧
    usedSlots (applyUpdates emW [1]) = 2 ∧
    ∃ p, slot (applyUpdates emW [1]) (nextSpawnSlot (applyUpdates emW [1])) = some p ∧
      ∀ i q, slot (applyUpdates emW [1]) i = some q → p.born ≤ q.born := by
  have h := emitter_capacity_and_recycling 2 3 1 0 0 ⟨0, 0, 0, 0⟩ ⟨0, 0, 0, 0⟩
    ⟨0, 0, 0⟩ ⟨0, 0, 0⟩ ⟨0, 0, 0⟩ [1] (by decide)
  have hT : 2 < (applyUpdates emW [1]).totalSpawned := by
    rw [emW_eval]
    decide
  exact ⟨h.1, (h.2 hT).1, (h.2 hT).2⟩

theorem agesNonneg_mkEmitter (maxP : ℕ) (pps life ssize esize : ℚ) (scol ecol : Float4)
    (svel spos sacc : Float3) :
    AgesNonneg (mkEmitter maxP pps life ssize esize scol ecol svel spos sacc) := by
  intro i p hp
  rw [slot_mkEmitter] at hp
  exact absurd hp (by simp)

theorem agesNonneg_spawnOne {em : Emitter} (h : AgesNonneg em) : AgesNonneg (spawnOne em) := by
  intro i p hp
  by_cases hc : i = em.totalSpawned % em.maxParticles
  · subst hc
    by_cases hlt : em.totalSpawned % em.maxParticles < em.pool.length
    · rw [slot_spawnOne_self em hlt] at hp
      obtain rfl : ({ age := 0, born := em.totalSpawned } : Particle) = p := by
        simpa using hp
      exact le_refl 0
    · rw [slot, show (spawnOne em).pool
          = em.pool.set (em.totalSpawned % em.maxParticles)
              (some { age := 0, born := em.totalSpawned }) from rfl] at hp
      simp [List.getElem?_set, hlt] at hp
  · rw [slot_spawnOne_other em i hc] at hp
    exact h i p hp

theorem agesNonneg_spawnMany {em : Emitter} (h : AgesNonneg em) (k : ℕ) :
    AgesNonneg (spawnMany em k) := by
  induction k generalizing em with
  | zero => exact h
  | succ k ih => exact ih (agesNonneg_spawnOne h)

theorem agesNonneg_ageParticles {em : Emitter} (h : AgesNonneg em) {dt : ℚ} (hdt : 0 ≤ dt) :
    AgesNonneg (ageParticles em dt) := by
  intro i p hp
  rw [slot_ageParticles] at hp
  obtain ⟨q, hq, rfl⟩ := Option.map_eq_some'.mp hp
  exact add_nonneg (h i q hq) hdt

theorem agesNonneg_setCounter {em : Emitter} (h : AgesNonneg em) (c : ℚ) :
    AgesNonneg { em with spawnCounter := c } := h

theorem agesNonneg_update {em : Emitter} (h : AgesNonneg em) {dt : ℚ} (hdt : 0 ≤ dt) :
    AgesNonneg (Emitter.update em dt) := by
  show AgesNonneg (spawnMany _ _)
  exact agesNonneg_spawnMany (agesNonneg_setCounter (agesNonneg_ageParticles h hdt) _) _

theorem agesNonneg_applyUpdates {em : Emitter} (h : AgesNonneg em) {dts : List ℚ}
    (hdts : ∀ d ∈ dts, 0 ≤ d) : AgesNonneg (applyUpdates em dts) := by
  induction dts generalizing em with
  | nil => exact h
  | cons dt dts ih =>
    exact ih (agesNonneg_update h (hdts dt (by simp))) fun d hd => hdts d (by simp [hd])

/-- C3: the interpolation parameter for a particle of age `a` equals
`clamp(a / lifetime, 0, 1)` — equal to `a / lifetime` on `[0, lifetime]` —
it is monotonically non-decreasing in the age and confined to `[0, 1]`; and
in a pool evolved by any non-negative update sequence (slots recycled any
number of times), every particle has non-negative age with its parameter
computed from that age alone. -/
theorem particle_interp_clamped_monotone (life : ℚ) (hlife : 0 < life) :
    (∀ a, 0 ≤ a → a ≤ life → particleT a life = a / life) ∧
    (∀ a b, a ≤ b → particleT a life ≤ particleT b life) ∧
    (∀ a, 0 ≤ particleT a life ∧ particleT a life ≤ 1) ∧
    (∀ (maxP : ℕ) (pps ssize esize : ℚ) (scol ecol : Float4) (svel spos sacc : Float3)
      (dts : List ℚ), (∀ d ∈ dts, 0 ≤ d) →
      ∀ i p,
        slot (applyUpdates (mkEmitter maxP pps life ssize esize scol ecol svel spos sacc) dts) i
          = some p →
        0 ≤ p.age ∧ particleT p.age life = clamp01 (p.age / life)) := by
  refine ⟨fun a ha hale => ?_, fun a b hab => ?_, fun a => ⟨?_, ?_⟩, ?_⟩
  · rw [particleT, clamp01, min_eq_right ((div_le_one hlife).mpr hale),
      max_eq_right (div_nonneg ha hlife.le)]
  · exact max_le_max (le_refl 0)
      (min_le_min (le_refl 1) ((div_le_div_iff_of_pos_right hlife).mpr hab))
  · exact le_max_left 0 _
  · exact max_le (by norm_num) (min_le_left 1 _)
  · intro maxP pps ssize esize scol ecol svel spos sacc dts hdts i p hp
    exact ⟨agesNonneg_applyUpdates
      (agesNonneg_mkEmitter maxP pps life ssize esize scol ecol svel spos sacc) hdts i p hp,
      rfl⟩

/-- Witness for `particle_interp_clamped_monotone` at lifetime 1, including a
pooled particle of the concrete capacity-2 emitter after one update. -/
theorem particle_interp_clamped_monotone_witness :
    particleT 1 1 = 1 / 1 ∧
    particleT 0 1 ≤ particleT 2 1 ∧
    (0 ≤ particleT 2 1 ∧ particleT 2 1 ≤ 1) ∧
    (0 ≤ ({ age := 0, born := 2 } : Particle).age ∧
      particleT ({ age := 0, born := 2 } : Particle).age 1
        = clamp01 (({ age := 0, born := 2 } : Particle).age / 1)) := by
  have h := particle_interp_clamped_monotone 1 (by decide)
  have hslot : slot (applyUpdates (mkEmitter 2 3 1 0 0 ⟨0, 0, 0, 0⟩ ⟨0, 0, 0, 0⟩
      ⟨0, 0, 0⟩ ⟨0, 0, 0⟩ ⟨0, 0, 0⟩) [1]) 0 = some { age := 0, born := 2 } := by
    rw [show applyUpdates (mkEmitter 2 3 1 0 0 ⟨0, 0, 0, 0⟩ ⟨0, 0, 0, 0⟩
      ⟨0, 0, 0⟩ ⟨0, 0, 0⟩ ⟨0, 0, 0⟩) [1] = applyUpdates emW [1] from rfl, emW_eval]
    decide
  exact ⟨h.1 1 (by decide) (by decide), h.2.1 0 2 (by decide), h.2.2.1 2,
    h.2.2.2 2 3 0 0 ⟨0, 0, 0, 0⟩ ⟨0, 0, 0, 0⟩ ⟨0, 0, 0⟩ ⟨0, 0, 0⟩ ⟨0, 0, 0⟩ [1]
      (by intro d hd; simp at hd; simp [hd]) 0 { age := 0, born := 2 } hslot⟩

/-- C4: every `Game::Draw` performs exactly this pipeline step sequence —
clear render target and depth buffer, draw the three opaque entities (vertex
buffer, index buffer, material, indexed draw each), set the additive blend
and no-depth-write depth states, draw the emitter, restore the default
states, present — nothing omitted or reordered. -/
theorem draw_pipeline_order :
    gameDrawSteps
      = [RenderStep.clearRenderTarget, RenderStep.clearDepthStencil,
         RenderStep.setVertexBuffer EntityId.sphere, RenderStep.setIndexBuffer EntityId.sphere,
         RenderStep.prepareMaterial EntityId.sphere, RenderStep.drawIndexed EntityId.sphere,
         RenderStep.setVertexBuffer EntityId.cube, RenderStep.setIndexBuffer EntityId.cube,
         RenderStep.prepareMaterial EntityId.cube, RenderStep.drawIndexed EntityId.cube,
         RenderStep.setVertexBuffer EntityId.helix, RenderStep.setIndexBuffer EntityId.helix,
         RenderStep.prepareMaterial EntityId.helix, RenderStep.drawIndexed EntityId.helix,
         RenderStep.setParticleBlendState, RenderStep.setParticleDepthState,
         RenderStep.drawEmitter, RenderStep.resetBlendState, RenderStep.resetDepthState,
         RenderStep.present] := rfl

/-- C5: whatever the sign and cumulative magnitude of the mouse deltas, the
pitch accumulator stays within [-89°, 89°] after every `RotateCamera` call. -/
theorem camera_pitch_clamped (c : Camera) (h1 : -89 ≤ c.pitch) (h2 : c.pitch ≤ 89)
    (ds : List (ℚ × ℚ)) :
    -89 ≤ (applyRotations c ds).pitch ∧ (applyRotations c ds).pitch ≤ 89 := by
  induction ds generalizing c with
  | nil => exact ⟨h1, h2⟩
  | cons d ds ih =>
    show -89 ≤ (applyRotations (rotateCamera c d.1 d.2) ds).pitch ∧ _
    exact ih _ (le_max_left _ _) (max_le (by norm_num) (min_le_left _ _))

/-- Witness for `camera_pitch_clamped`: a fresh camera hit by one enormous
upward mouse delta stays within the pitch bounds. -/
theorem camera_pitch_clamped_witness :
    -89 ≤ (applyRotations mkCamera [(0, 1000000)]).pitch ∧
    (applyRotations mkCamera [(0, 1000000)]).pitch ≤ 89 :=
  camera_pitch_clamped mkCamera (by decide) (by decide) [(0, 1000000)]

/-- C6: each shader load tries the primary (Debug/) path, tries the fallback
path exactly when the primary fails, reports an unloaded (null) resource only
when both fail, and `LoadShaders` carries on through all four shader files
regardless of failures. -/
theorem shader_fallback_policy (loads : String → Bool) :
    (∀ primary fallback,
      (loadShaderWithFallback loads primary fallback).1
        = (if loads primary then [primary] else [primary, fallback]) ∧
      (loadShaderWithFallback loads primary fallback).2
        = (loads primary || loads fallback)) ∧
    (loadShaders loads).length = shaderFiles.length := by
  refine ⟨fun primary fallback => ?_, List.length_map ..⟩
  cases h : loads primary <;> simp [loadShaderWithFallback, h]

/-- C7: `Game::OnResize` recomputes the camera projection from the new width
and height before returning, so every subsequent `Draw` reads the new aspect
ratio; resizing to 800x600 yields aspect ratio 800/600. -/
theorem resize_updates_projection (g : GameState) (newW newH : ℕ) :
    drawProjAspect (onResize g newW newH) = (newW : ℚ) / (newH : ℚ) ∧
    drawProjAspect (onResize g 800 600) = 800 / 600 := by
  constructor
  · rfl
  · show ((800 : ℕ) : ℚ) / ((600 : ℕ) : ℚ) = 800 / 600
    norm_num

/-- C8: the pump checks the escape key exactly once per Update (one check
event per update event), and once a quit has been requested no further draw
event appears in the loop trace; a quit request occurs exactly when some
frame saw the escape key down. -/
theorem escape_quit_cooperative (escs : List Bool) :
    noDrawAfterQuit (frameTrace escs) = true ∧
    (frameTrace escs).countP (fun e => decide (e = LoopEvent.escCheck))
      = (frameTrace escs).countP (fun e => decide (e = LoopEvent.update)) ∧
    (LoopEvent.quitRequest ∈ frameTrace escs ↔ true ∈ escs) := by
  induction escs with
  | nil => simp [frameTrace, noDrawAfterQuit]
  | cons esc rest ih =>
    obtain ⟨ih1, ih2, ih3⟩ := ih
    cases esc <;>
      simp [frameTrace, noDrawAfterQuit, List.countP_cons, ih1, ih2, ih3]

/-- C9: every `Game::Update` advances entityOne's y rotation by exactly the
constant 1/10000 (the literal 0.0001 at Game.cpp:275), independent of the
`deltaTime` and `totalTime` arguments — per frame, not per elapsed second —
leaving its x and z rotation untouched. -/
theorem update_spins_sphere_per_frame (g : GameState)
    (deltaTime totalTime sinTotalTime : ℚ) (escPressed : Bool) :
    (gameUpdate g deltaTime totalTime sinTotalTime escPressed).entityOneRotation.y
      = g.entityOneRotation.y + 1/10000 ∧
    (gameUpdate g deltaTime totalTime sinTotalTime escPressed).entityOneRotation.x
      = g.entityOneRotation.x ∧
    (gameUpdate g deltaTime totalTime sinTotalTime escPressed).entityOneRotation.z
      = g.entityOneRotation.z :=
  ⟨rfl, rfl, rfl⟩

/-- C10: `Game::OnMouseMove` always ends by storing `(x, y)` as the previous
mouse position, and issues exactly one `RotateCamera(x - prev.x, y - prev.y)`
call precisely when bit 0 of the button state is set and the position
changed. -/
theorem mouse_move_behavior (g : GameState) (buttonState : ℕ) (x y : ℤ) :
    (onMouseMove g buttonState x y).1.prevMouseX = x ∧
    (onMouseMove g buttonState x y).1.prevMouseY = y ∧
    (onMouseMove g buttonState x y).2
      = if buttonState.testBit 0 ∧ (x, y) ≠ (g.prevMouseX, g.prevMouseY) then
          [(((x - g.prevMouseX : ℤ) : ℚ), ((y - g.prevMouseY : ℤ) : ℚ))]
        else [] := by
  refine ⟨rfl, rfl, ?_⟩
  have hcond : (buttonState &&& 1 ≠ 0 ∧ (x ≠ g.prevMouseX ∨ y ≠ g.prevMouseY))
      ↔ (buttonState.testBit 0 ∧ (x, y) ≠ (g.prevMouseX, g.prevMouseY)) := by
    apply and_congr
    · rw [Nat.and_one_is_mod, Nat.testBit_zero]
      simp only [ne_eq, decide_eq_true_eq]
      omega
    · simp only [ne_eq, Prod.mk.injEq, not_and_or]
  show (if buttonState &&& 1 ≠ 0 ∧ (x ≠ g.prevMouseX ∨ y ≠ g.prevMouseY) then
      [(((x - g.prevMouseX : ℤ) : ℚ), ((y - g.prevMouseY : ℤ) : ℚ))]
    else ([] : List (ℚ × ℚ))) = _
  rw [if_congr hcond rfl rfl]
